import Mathlib

/-!
Shallow embedding of the visit/response orchestration core of the
repository (packages/core/src/response.ts and
packages/core/src/initialVisit.ts), together with theorems checking the
specification's claims about it.

Conventions of the embedding:
* JS values occurring in page props are modelled by the inductive `Val`
  (arrays, plain objects, strings, numbers, booleans).  Objects are
  association lists whose keys are assumed distinct, as they are for any
  real JS object.
* JS `undefined` is modelled by `Option`: a missing key yields `none`.
* Operations that would raise a TypeError in JS (spreading a non-iterable
  value inside an array literal) return `none` at the `Option` level.
* URLs are modelled structurally (origin, pathname, search, hash) rather
  than as strings; `hrefToUrl` is therefore the identity and is not
  represented.
-/

inductive Val where
  | arr (xs : List Val)
  | obj (fields : List (String × Val))
  | str (s : String)
  | num (n : Int)

mutual

def Val.beq : Val → Val → Bool
  | Val.arr xs, Val.arr ys => Val.beqElems xs ys
  | Val.obj fs, Val.obj gs => Val.beqFields fs gs
  | Val.str a, Val.str b => a == b
  | Val.num a, Val.num b => a == b
  | _, _ => false

def Val.beqElems : List Val → List Val → Bool
  | [], [] => true
  | x :: xs, y :: ys => Val.beq x y && Val.beqElems xs ys
  | _, _ => false

def Val.beqFields : List (String × Val) → List (String × Val) → Bool
  | [], [] => true
  | (k, v) :: fs, (l, w) :: gs => k == l && Val.beq v w && Val.beqFields fs gs
  | _, _ => false

end

mutual

theorem Val.eq_of_beq : ∀ a b : Val, Val.beq a b = true → a = b
  | Val.arr xs, Val.arr ys, h =>
      congrArg Val.arr (Val.eqElems_of_beqElems xs ys (by simpa [Val.beq] using h))
  | Val.obj fs, Val.obj gs, h =>
      congrArg Val.obj (Val.eqFields_of_beqFields fs gs (by simpa [Val.beq] using h))
  | Val.str a, Val.str b, h => by simp [Val.beq] at h; rw [h]
  | Val.num a, Val.num b, h => by simp [Val.beq] at h; rw [h]
  | Val.arr _, Val.obj _, h => by simp [Val.beq] at h
  | Val.arr _, Val.str _, h => by simp [Val.beq] at h
  | Val.arr _, Val.num _, h => by simp [Val.beq] at h
  | Val.obj _, Val.arr _, h => by simp [Val.beq] at h
  | Val.obj _, Val.str _, h => by simp [Val.beq] at h
  | Val.obj _, Val.num _, h => by simp [Val.beq] at h
  | Val.str _, Val.arr _, h => by simp [Val.beq] at h
  | Val.str _, Val.obj _, h => by simp [Val.beq] at h
  | Val.str _, Val.num _, h => by simp [Val.beq] at h
  | Val.num _, Val.arr _, h => by simp [Val.beq] at h
  | Val.num _, Val.obj _, h => by simp [Val.beq] at h
  | Val.num _, Val.str _, h => by simp [Val.beq] at h

theorem Val.eqElems_of_beqElems : ∀ xs ys : List Val, Val.beqElems xs ys = true → xs = ys
  | [], [], _ => rfl
  | x :: xs, y :: ys, h => by
      simp only [Val.beqElems, Bool.and_eq_true] at h
      rw [Val.eq_of_beq x y h.1, Val.eqElems_of_beqElems xs ys h.2]
  | [], _ :: _, h => by simp [Val.beqElems] at h
  | _ :: _, [], h => by simp [Val.beqElems] at h

theorem Val.eqFields_of_beqFields :
    ∀ fs gs : List (String × Val), Val.beqFields fs gs = true → fs = gs
  | [], [], _ => rfl
  | (k, v) :: fs, (l, w) :: gs, h => by
      simp only [Val.beqFields, Bool.and_eq_true, beq_iff_eq] at h
      rw [h.1.1, Val.eq_of_beq v w h.1.2, Val.eqFields_of_beqFields fs gs h.2]
  | [], _ :: _, h => by simp [Val.beqFields] at h
  | _ :: _, [], h => by simp [Val.beqFields] at h

end

mutual

theorem Val.beq_refl : ∀ a : Val, Val.beq a a = true
  | Val.arr xs => by simpa [Val.beq] using Val.beqElems_refl xs
  | Val.obj fs => by simpa [Val.beq] using Val.beqFields_refl fs
  | Val.str _ => by simp [Val.beq]
  | Val.num _ => by simp [Val.beq]

theorem Val.beqElems_refl : ∀ xs : List Val, Val.beqElems xs xs = true
  | [] => rfl
  | x :: xs => by
      simp only [Val.beqElems, Bool.and_eq_true]
      exact ⟨Val.beq_refl x, Val.beqElems_refl xs⟩

theorem Val.beqFields_refl : ∀ fs : List (String × Val), Val.beqFields fs fs = true
  | [] => rfl
  | (k, v) :: fs => by
      simp only [Val.beqFields, Bool.and_eq_true, beq_iff_eq]
      exact ⟨⟨trivial, Val.beq_refl v⟩, Val.beqFields_refl fs⟩

end

instance : DecidableEq Val := fun a b =>
  if h : Val.beq a b = true then isTrue (Val.eq_of_beq a b h)
  else isFalse (fun he => h (he ▸ Val.beq_refl a))

/-- JS truthiness of a `Val`: arrays and objects are always truthy,
the empty string and zero are falsy. -/
def jsTruthy : Val → Bool
  | Val.arr _ => true
  | Val.obj _ => true
  | Val.str s => !(s == "")
  | Val.num n => !(n == 0)

/-- Props of a page: a JS object, i.e. an association list with distinct keys. -/
abbrev Props := List (String × Val)

/-- Key lookup on a JS object (`o[k]`); `none` models `undefined`. -/
def getProp : Props → String → Option Val
  | [], _ => none
  | (k, v) :: rest, n => if k == n then some v else getProp rest n

/-- Key assignment on a JS object (`o[k] = v`): replaces the value at an
existing key in place, appends the key otherwise. -/
def setKey : Props → String → Val → Props
  | [], k, v => [(k, v)]
  | (k', v') :: rest, k, v =>
      if k' == k then (k, v) :: rest else (k', v') :: setKey rest k v

/-- JS object spread merge: the semantics of an object literal
spreading `a` then `b` — keys of `a` in order, values overridden by `b`,
new keys of `b` appended in order. -/
def objMergeFields (a b : Props) : Props :=
  b.foldl (fun acc kv => setKey acc kv.1 kv.2) a

/-- Whether a key occurs in an association list. -/
def keyIn (ps : Props) (k : String) : Bool :=
  ps.any (fun kv => kv.1 == k)

/-- Distinctness of the keys of an association list — the
representation invariant every real JS object satisfies. -/
def keysNodup : Props → Bool
  | [] => true
  | (k, _) :: rest => !(keyIn rest k) && keysNodup rest

/-- Spreading a value inside an array literal.  Arrays yield their
elements, strings iterate into one-character strings, every other value
is not iterable and raises a TypeError, modelled by `none`. -/
def arrSpread : Val → Option (List Val)
  | Val.arr xs => some xs
  | Val.str s => some (s.toList.map (fun c => Val.str (String.mk [c])))
  | _ => none

/-- Spreading a value inside an object literal.  Objects yield their
fields, arrays and strings yield index-keyed fields, primitives yield
nothing; this operation never fails in JS. -/
def objSpreadFields : Val → Props
  | Val.obj fs => fs
  | Val.arr xs => xs.enum.map (fun p => (toString p.1, p.2))
  | Val.str s => s.toList.enum.map (fun p => (toString p.1, Val.str (String.mk [p.2])))
  | _ => []

/-- The JS `x || d` idiom applied to a possibly-missing value. -/
def jsOr (x : Option Val) (d : Val) : Val :=
  match x with
  | some v => if jsTruthy v then v else d
  | none => d

/-- A URL, already parsed into the components the code inspects. -/
structure Url where
  origin : String
  pathname : String
  search : String
  hash : String
deriving DecidableEq

/-- The page payload (types.ts `Page`), restricted to the fields this
core reads.  The server-side flag list `mergeProps` keeps its source
name. -/
structure Page where
  component : String
  props : Props
  url : Url
  version : String
  rememberedState : Option Val
  mergeProps : List String
deriving DecidableEq

/-- The request parameters of a visit (`requestParams.all()`), with the
callable preserve options already resolved to booleans and the partial
reload test `isPartial()` carried as a field. -/
structure ReqParams where
  prefetch : Bool
  async : Bool
  preserveScroll : Bool
  preserveState : Bool
  preserveUrl : Bool
  replace : Bool
  errorBag : Option String
  isPartial : Bool
  url : Url
deriving DecidableEq

/-- The transport response (status, headers, page payload). -/
structure AxResponse where
  status : Nat
  headers : List (String × String)
  data : Page
deriving DecidableEq

def getHeader (resp : AxResponse) (h : String) : Option String :=
  resp.headers.lookup h

def hasHeader (resp : AxResponse) (h : String) : Bool :=
  (getHeader resp h).isSome

def isInertiaResponse (resp : AxResponse) : Bool :=
  hasHeader resp "x-inertia"

def isLocationVisit (resp : AxResponse) : Bool :=
  resp.status == 409 && hasHeader resp "x-inertia-location"

/-- Response.shouldSetPage: the staleness/race policy deciding whether a
protocol response is applied to the page store. -/
def shouldSetPage (rp : ReqParams) (origPage curPage pageResponse : Page) : Bool :=
  if !rp.async then
    true
  else if origPage.component != pageResponse.component then
    true
  else if origPage.component != curPage.component then
    false
  else
    origPage.url.origin == curPage.url.origin &&
      origPage.url.pathname == curPage.url.pathname

/-- The forEach body of Response.mergeProps for a single mergeable prop
name: an incoming array is appended to the prior value spread as an
array (absent or falsy prior defaulting to the empty array), an incoming
non-array object is the object-spread of the prior overlaid by the
incoming fields, anything else is left untouched.  `none` models the JS
TypeError raised when a truthy non-iterable prior is spread into an
array literal. -/
def mergeOne (curProps props : Props) (n : String) : Option Props :=
  match getProp props n with
  | none => some props
  | some incoming =>
    match incoming with
    | Val.arr xs =>
        (arrSpread (jsOr (getProp curProps n) (Val.arr []))).map
          (fun prior => setKey props n (Val.arr (prior ++ xs)))
    | Val.obj fs =>
        some (setKey props n
          (Val.obj (objMergeFields (objSpreadFields (jsOr (getProp curProps n) (Val.arr []))) fs)))
    | _ => some props

/-- The fold of `mergeOne` over the server-flagged prop names. -/
def mergeAll (curProps : Props) : Props → List String → Option Props
  | props, [] => some props
  | props, n :: ns =>
    match mergeOne curProps props n with
    | none => none
    | some props1 => mergeAll curProps props1 ns

/-- Response.mergeProps: on a partial reload targeting the current
component, merge the flagged props and then layer the full incoming
prop set over the full current prop set. -/
def mergeProps (rp : ReqParams) (cur pageResponse : Page) : Option Page :=
  if rp.isPartial && (pageResponse.component == cur.component) then
    match mergeAll cur.props pageResponse.props pageResponse.mergeProps with
    | none => none
    | some props1 => some { pageResponse with props := objMergeFields cur.props props1 }
  else
    some pageResponse

/-- Response.setRememberedState: the remembered state carried over onto
the incoming page.  `historyRemembered.isSome` models the truthiness
test on History.getState (a stored remembered-state object is truthy). -/
def setRememberedState (rp : ReqParams) (cur : Page) (historyRemembered : Option Val)
    (pageResponse : Page) : Option Val :=
  if rp.preserveState && historyRemembered.isSome &&
      (pageResponse.component == cur.component) then
    historyRemembered
  else
    pageResponse.rememberedState

/-- Key access on a `Val` that is expected to be an object. -/
def objGet : Val → String → Option Val
  | Val.obj fs, k => getProp fs k
  | _, _ => none

/-- Response.getScopedErrors: scope committed errors by the configured
error-bag name.  The JS test is on truthiness of the name, so a missing
name and the empty string both leave the errors unscoped. -/
def getScopedErrors (errorBag : Option String) (errors : Val) : Val :=
  if !(match errorBag with | none => false | some s => !(s == "")) then
    errors
  else
    jsOr (objGet errors (errorBag.getD "")) (Val.obj [])

/-- Modelled from the spec: url.ts (not included in the sources) is
described as "preserving a same-document hash fragment from the request
URL if the URLs are identical apart from hash"; setHashIfSameUrl copies
the origin URL's hash onto the destination when the two URLs agree on
everything but the hash. -/
def setHashIfSameUrl (origin destination : Url) : Url :=
  if origin.origin == destination.origin &&
      origin.pathname == destination.pathname &&
      origin.search == destination.search then
    { destination with hash := origin.hash }
  else
    destination

/-- Response.pageUrl: the response URL with the request's hash fragment
preserved when the two match apart from hash. -/
def pageUrl (rp : ReqParams) (pageResponse : Page) : Url :=
  setHashIfSameUrl rp.url pageResponse.url

/-- The mutable state process() touches: the page store, the global
History.preserveUrl flag, History's remembered-state entry and the
session-storage marker written by a location visit. -/
structure ProcState where
  page : Page
  preserveUrl : Bool
  rememberedState : Option Val
  locationVisitMarker : Option Bool
deriving DecidableEq

/-- Response.setPage: apply the staleness policy, then merge props,
carry remembered state over, resolve the URL and commit the page. -/
def setPage (rp : ReqParams) (origPage : Page) (pageResponse : Page)
    (st : ProcState) : Option ProcState :=
  if !(shouldSetPage rp origPage st.page pageResponse) then
    some st
  else
    match mergeProps rp st.page pageResponse with
    | none => none
    | some merged =>
      let withRemembered :=
        { merged with rememberedState := setRememberedState rp st.page st.rememberedState merged }
      let finalUrl := if st.preserveUrl then st.page.url else pageUrl rp withRemembered
      some { st with page := { withRemembered with url := finalUrl } }

/-- The externally visible callbacks and events process() can trigger,
in their firing order. -/
inductive Ev where
  | onPrefetched
  | prefetchedEvent
  | onPrefetchResponse
  | runCallbacks
  | locationVisit
  | invalidEvent
  | modalShow
  | errorEvent (errors : Val)
  | onError (errors : Val)
  | successEvent
  | onSuccess
deriving DecidableEq

/-- The committed page's error bag (`props.errors || \x7b\x7d`). -/
def errorsOf (p : Page) : Val :=
  jsOr (getProp p.props "errors") (Val.obj [])

/-- Object.keys(v).length for the error-bag emptiness test. -/
def keyCount : Val → Nat
  | Val.obj fs => ((fs.map Prod.fst).dedup).length
  | Val.arr xs => xs.length
  | Val.str s => s.length
  | _ => 0

/-- Response.process: the full per-response pipeline — prefetch
short-circuit, completion callbacks, non-protocol handling,
preserve-URL latch, page commit and the error/success branch.
`invalidNotCancelled` carries the boolean returned by fireInvalidEvent.
The result is the final state plus the ordered trace of callbacks and
events; `none` models a JS exception escaping process(). -/
def process (rp : ReqParams) (origPage : Page) (resp : AxResponse)
    (invalidNotCancelled : Bool) (st : ProcState) : Option (ProcState × List Ev) :=
  if rp.prefetch then
    some (st, [Ev.onPrefetched, Ev.prefetchedEvent, Ev.onPrefetchResponse])
  else if !(isInertiaResponse resp) then
    if isLocationVisit resp then
      some ({ st with locationVisitMarker := some rp.preserveScroll },
        [Ev.runCallbacks, Ev.locationVisit])
    else if invalidNotCancelled then
      some (st, [Ev.runCallbacks, Ev.invalidEvent, Ev.modalShow])
    else
      some (st, [Ev.runCallbacks, Ev.invalidEvent])
  else
    match setPage rp origPage resp.data { st with preserveUrl := rp.preserveUrl } with
    | none => none
    | some st2 =>
      let errors := errorsOf st2.page
      if 0 < keyCount errors then
        let scopedErrors := getScopedErrors rp.errorBag errors
        some (st2, [Ev.runCallbacks, Ev.errorEvent scopedErrors, Ev.onError scopedErrors])
      else
        some ({ st2 with preserveUrl := false },
          [Ev.runCallbacks, Ev.successEvent, Ev.onSuccess])

/-- Response.handlePrefetch: the response is handed to the queue (via
handle()) only when the active page's component matches the payload's
component; otherwise nothing at all happens.  The returned list is the
list of responses enqueued. -/
def handlePrefetch (cur : Page) (resp : AxResponse) : List AxResponse :=
  if cur.component == resp.data.component then [resp] else []

/-- The per-prop merge rule exactly as the claim words it: both arrays
concatenate prior-first, both plain objects shallow-merge with incoming
keys winning, otherwise the incoming value replaces the prior outright.
This definition follows the claim, not the source, and is compared
against `mergeOne`. -/
def claimMergeVal (incoming : Val) (prior : Option Val) : Val :=
  match incoming, prior with
  | Val.arr xs, some (Val.arr ys) => Val.arr (ys ++ xs)
  | Val.obj fs, some (Val.obj gs) => Val.obj (objMergeFields gs fs)
  | _, _ => incoming

/-- The claim's per-prop rule applied at one mergeable name. -/
def claimMergeOne (curProps props : Props) (n : String) : Props :=
  match getProp props n with
  | none => props
  | some incoming => setKey props n (claimMergeVal incoming (getProp curProps n))

/-- The claim's rule folded over the flagged prop names. -/
def claimMergeAll (curProps : Props) : Props → List String → Props
  | props, [] => props
  | props, n :: ns => claimMergeAll curProps (claimMergeOne curProps props n) ns

/-- Response.mergeProps exactly as the claim words it: the per-prop
trichotomy of `claimMergeVal` followed by layering the incoming prop
set over the current prop set. -/
def claimMergeProps (rp : ReqParams) (cur pageResponse : Page) : Page :=
  if rp.isPartial && (pageResponse.component == cur.component) then
    { pageResponse with
        props := objMergeFields cur.props
          (claimMergeAll cur.props pageResponse.props pageResponse.mergeProps) }
  else
    pageResponse

/-- Kind-compatibility of an incoming prop value with the prior value:
the incoming value is absent or primitive, or an incoming array faces
an array / absent / falsy prior, or an incoming object faces an object
/ absent / falsy prior.  On these inputs the claim's trichotomy and the
source agree; an incoming object facing an absent or falsy prior
additionally carries the distinct-keys invariant of real JS objects,
under which the code's spread of an empty prior is the identity. -/
def Compat (vi vp : Option Val) : Prop :=
  match vi, vp with
  | some (Val.arr _), none => True
  | some (Val.arr _), some p => (∃ ys, p = Val.arr ys) ∨ jsTruthy p = false
  | some (Val.obj fs), none => keysNodup fs = true
  | some (Val.obj fs), some p =>
      (∃ gs, p = Val.obj gs) ∨ (jsTruthy p = false ∧ keysNodup fs = true)
  | _, _ => True

/-!  Initial-Visit Resolver (initialVisit.ts). -/

/-- The browser facts InitialVisit.handle consults: navigation type,
presence of history state and of the location-visit session marker. -/
structure InitEnv where
  isReload : Bool
  isBackForward : Bool
  hasAnyState : Bool
  locationMarker : Bool
deriving DecidableEq

/-- The externally visible actions of InitialVisit.handle, at scenario
granularity: the reload-time remembered-state purge and which
scenario's body ran. -/
inductive InitEffect where
  | clearRemembered
  | scenarioBackForward
  | scenarioLocation
  | scenarioDefault
deriving DecidableEq

/-- InitialVisit.handleBackForward: fires only for a back/forward
navigation with existing history state; returns whether it handled the
startup together with its effects. -/
def handleBackForward (e : InitEnv) : Bool × List InitEffect :=
  if !e.isBackForward || !e.hasAnyState then (false, [])
  else (true, [InitEffect.scenarioBackForward])

/-- InitialVisit.handleLocation at scenario granularity: fires only
when the session-storage marker exists. -/
def handleLocationScenario (e : InitEnv) : Bool × List InitEffect :=
  if !e.locationMarker then (false, [])
  else (true, [InitEffect.scenarioLocation])

/-- InitialVisit.handleDefault: its body always runs, but the function
returns undefined, which Array.prototype.find treats as no match. -/
def handleDefault (_ : InitEnv) : Bool × List InitEffect :=
  (false, [InitEffect.scenarioDefault])

/-- scenarios.find(handler ⇒ handler()): run handlers in order,
accumulating their effects, stopping at the first truthy return. -/
def findRun (e : InitEnv) : List (InitEnv → Bool × List InitEffect) → List InitEffect
  | [] => []
  | h :: hs =>
    let r := h e
    if r.1 then r.2 else r.2 ++ findRun e hs

/-- InitialVisit.clearRememberedStateOnReload. -/
def clearRememberedStateOnReload (e : InitEnv) : List InitEffect :=
  if e.isReload then [InitEffect.clearRemembered] else []

/-- InitialVisit.handle: the reload purge followed by the fixed-order
scenario scan. -/
def initialVisitHandle (e : InitEnv) : List InitEffect :=
  clearRememberedStateOnReload e ++
    findRun e [handleBackForward, handleLocationScenario, handleDefault]

/-- The scenario the spec's fixed priority order picks.  This definition
follows the claim's words and is compared against `initialVisitHandle`. -/
def specScenario (e : InitEnv) : InitEffect :=
  if e.isBackForward && e.hasAnyState then InitEffect.scenarioBackForward
  else if e.locationMarker then InitEffect.scenarioLocation
  else InitEffect.scenarioDefault

/-- The individual actions of InitialVisit.handleLocation, in program
order. -/
inductive LocEffect where
  | removeMarker
  | setUrlHash
  | decryptAttempt
  | rememberSet
  | scrollRegionsSet
  | commitPage
  | scrollRestore
  | navigateEvent
  | missingHistoryItem
deriving DecidableEq

/-- InitialVisit.handleLocation: `marker` is the session-storage
location-visit entry (its preserveScroll flag) or `none` when absent;
`decryptOk` is the outcome of history.decrypt().  Returns whether the
scenario handled the startup, the ordered actions taken, and the
session-storage marker afterwards. -/
def handleLocation (marker : Option Bool) (decryptOk : Bool) :
    Bool × List LocEffect × Option Bool :=
  match marker with
  | none => (false, [], none)
  | some preserveScroll =>
    (true,
      [LocEffect.removeMarker, LocEffect.setUrlHash, LocEffect.decryptAttempt] ++
        (if decryptOk then
          [LocEffect.rememberSet, LocEffect.scrollRegionsSet, LocEffect.commitPage] ++
            (if preserveScroll then [LocEffect.scrollRestore] else []) ++
            [LocEffect.navigateEvent]
        else
          [LocEffect.missingHistoryItem]),
      none)

/-!  Response Queue (class ResponseQueue): a small-step machine.

Responses are identified by natural numbers.  `arrive i` models
Response.handle (queue.add followed by queue.process, which returns at
once when a drain is already running and otherwise latches the
processing flag); `startP`/`doneP` bracket the awaited
nextResponse.process() of one drained item; `finishP` is the drain loop
finding the queue empty and clearing the flag.  Arrivals may interleave
anywhere, which covers every schedule the single-threaded event loop
can produce.  `arrivals` is the ghost list of all ids ever enqueued. -/

inductive QEv where
  | start (i : Nat)
  | done (i : Nat)
deriving DecidableEq

structure QState where
  queue : List Nat
  processing : Bool
  current : Option Nat
  trace : List QEv
  arrivals : List Nat
deriving DecidableEq

def QState.init : QState := ⟨[], false, none, [], []⟩

inductive QStep : QState → QState → Prop where
  | arrive (s : QState) (i : Nat) :
      QStep s ⟨s.queue ++ [i], true, s.current, s.trace, s.arrivals ++ [i]⟩
  | startP (s : QState) (i : Nat) (rest : List Nat) :
      s.processing = true → s.current = none → s.queue = i :: rest →
      QStep s ⟨rest, true, some i, s.trace ++ [QEv.start i], s.arrivals⟩
  | doneP (s : QState) (i : Nat) :
      s.current = some i →
      QStep s ⟨s.queue, s.processing, none, s.trace ++ [QEv.done i], s.arrivals⟩
  | finishP (s : QState) :
      s.processing = true → s.current = none → s.queue = [] →
      QStep s ⟨[], false, none, s.trace, s.arrivals⟩

/-- The ids of the start events of a trace, in order. -/
def startsOf : List QEv → List Nat
  | [] => []
  | QEv.start i :: rest => i :: startsOf rest
  | QEv.done _ :: rest => startsOf rest

/-- A trace is fully paired when it is a sequence of immediately
matched start/done pairs — no two processings overlap. -/
def wfPaired : List QEv → Bool
  | [] => true
  | QEv.start i :: QEv.done j :: rest => i == j && wfPaired rest
  | QEv.start _ :: QEv.start _ :: _ => false
  | [QEv.start _] => false
  | QEv.done _ :: _ => false

/-- The canonical non-overlapping trace that processes `l` in order. -/
def pairTrace : List Nat → List QEv
  | [] => []
  | i :: rest => QEv.start i :: QEv.done i :: pairTrace rest

/-- Invariant of the queue machine: the started items followed by the
pending queue are exactly the arrivals in order; the trace is fully
paired, apart from a trailing start for the in-flight item; an idle
machine has nothing queued or in flight. -/
def QInv (s : QState) : Prop :=
  (startsOf s.trace ++ s.queue = s.arrivals) ∧
  (match s.current with
   | none => wfPaired s.trace = true
   | some i => ∃ t, s.trace = t ++ [QEv.start i] ∧ wfPaired t = true) ∧
  (s.processing = false → s.queue = [] ∧ s.current = none)

/-!  Concrete fixtures used by witnesses and counterexamples. -/

def urlA : Url := ⟨"https://x", "/users", "", ""⟩

def pageA : Page :=
  { component := "Users", props := [("a", Val.num 1)], url := urlA,
    version := "v1", rememberedState := none, mergeProps := [] }

def rpSync : ReqParams :=
  { prefetch := false, async := false, preserveScroll := false,
    preserveState := false, preserveUrl := true, replace := false,
    errorBag := none, isPartial := false, url := urlA }

def respError : AxResponse :=
  { status := 200, headers := [("x-inertia", "true")],
    data := { component := "Users",
              props := [("errors", Val.obj [("name", Val.str "required")])],
              url := urlA, version := "v1", rememberedState := none,
              mergeProps := [] } }

def stA : ProcState :=
  { page := pageA, preserveUrl := false, rememberedState := none,
    locationVisitMarker := none }

def rpPartial : ReqParams :=
  { prefetch := false, async := false, preserveScroll := false,
    preserveState := false, preserveUrl := false, replace := false,
    errorBag := none, isPartial := true, url := urlA }

def pageArr : Page :=
  { component := "Users", props := [("a", Val.arr [Val.num 1, Val.num 2])],
    url := urlA, version := "v1", rememberedState := none, mergeProps := [] }

def respArr : Page :=
  { component := "Users", props := [("a", Val.arr [Val.num 3])],
    url := urlA, version := "v1", rememberedState := none, mergeProps := ["a"] }

def pageMixed : Page :=
  { component := "Users", props := [("a", Val.arr [Val.num 1])],
    url := urlA, version := "v1", rememberedState := none, mergeProps := [] }

def respMixed : Page :=
  { component := "Users", props := [("a", Val.obj [("y", Val.num 2)])],
    url := urlA, version := "v1", rememberedState := none, mergeProps := ["a"] }

def errsW : Val :=
  Val.obj [("bag", Val.obj [("name", Val.str "required")]), ("other", Val.str "x")]

/-- The state process() is expected to end in on the error-path fixture. -/
def stErr : ProcState :=
  { page := respError.data, preserveUrl := true, rememberedState := none,
    locationVisitMarker := none }

/-- The trace process() is expected to produce on the error-path fixture. -/
def evsErr : List Ev :=
  [Ev.runCallbacks, Ev.errorEvent (Val.obj [("name", Val.str "required")]),
    Ev.onError (Val.obj [("name", Val.str "required")])]

/-- What the source computes on the mixed-kind merge fixture: the prior
array's index keys are spread into the incoming object. -/
def mixedCodePage : Page :=
  { component := "Users",
    props := [("a", Val.obj [("0", Val.num 1), ("y", Val.num 2)])],
    url := urlA, version := "v1", rememberedState := none, mergeProps := ["a"] }

/-- What the claim's replace-outright rule predicts on the mixed-kind
merge fixture. -/
def mixedClaimPage : Page :=
  { component := "Users", props := [("a", Val.obj [("y", Val.num 2)])],
    url := urlA, version := "v1", rememberedState := none, mergeProps := ["a"] }

/-- The expected result of the claim's array example. -/
def mergedArrPage : Page :=
  { component := "Users",
    props := [("a", Val.arr [Val.num 1, Val.num 2, Val.num 3])],
    url := urlA, version := "v1", rememberedState := none, mergeProps := ["a"] }

def pageObj : Page :=
  { component := "Users", props := [("a", Val.obj [("x", Val.num 1)])],
    url := urlA, version := "v1", rememberedState := none, mergeProps := [] }

def respObj : Page :=
  { component := "Users", props := [("a", Val.obj [("y", Val.num 2)])],
    url := urlA, version := "v1", rememberedState := none, mergeProps := ["a"] }

/-- The expected result of the claim's object example. -/
def mergedObjPage : Page :=
  { component := "Users",
    props := [("a", Val.obj [("x", Val.num 1), ("y", Val.num 2)])],
    url := urlA, version := "v1", rememberedState := none, mergeProps := ["a"] }

/-!  Theorems. -/

theorem startsOf_append (a b : List QEv) :
    startsOf (a ++ b) = startsOf a ++ startsOf b := by
  induction a with
  | nil => rfl
  | cons x rest ih => cases x <;> simp [startsOf, ih]

theorem wfPaired_append_pair :
    ∀ t : List QEv, wfPaired t = true → ∀ i : Nat,
      wfPaired (t ++ [QEv.start i, QEv.done i]) = true
  | [], _, i => by simp [wfPaired]
  | QEv.start a :: QEv.done b :: rest, h, i => by
      simp only [wfPaired, Bool.and_eq_true] at h
      simp only [List.cons_append, wfPaired, Bool.and_eq_true]
      exact ⟨h.1, wfPaired_append_pair rest h.2 i⟩
  | QEv.start a :: QEv.start b :: rest, h, i => by simp [wfPaired] at h
  | [QEv.start a], h, i => by simp [wfPaired] at h
  | QEv.done a :: rest, h, i => by simp [wfPaired] at h

theorem wfPaired_eq_pairTrace :
    ∀ t : List QEv, wfPaired t = true → t = pairTrace (startsOf t)
  | [], _ => rfl
  | QEv.start a :: QEv.done b :: rest, h => by
      simp only [wfPaired, Bool.and_eq_true, beq_iff_eq] at h
      obtain ⟨hab, hr⟩ := h
      subst hab
      simp only [startsOf, pairTrace]
      exact congrArg (fun l => QEv.start a :: QEv.done a :: l)
        (wfPaired_eq_pairTrace rest hr)
  | QEv.start a :: QEv.start b :: rest, h => by simp [wfPaired] at h
  | [QEv.start a], h => by simp [wfPaired] at h
  | QEv.done a :: rest, h => by simp [wfPaired] at h

theorem QInv_init : QInv QState.init := by
  unfold QInv
  exact ⟨rfl, by simp [QState.init, wfPaired], fun _ => ⟨rfl, rfl⟩⟩

theorem QInv_step {s s' : QState} (hs : QInv s) (h : QStep s s') : QInv s' := by
  obtain ⟨h1, h2, h3⟩ := hs
  unfold QInv
  cases h with
  | arrive i =>
      refine ⟨?_, h2, fun hf => nomatch hf⟩
      have := congrArg (fun l => l ++ [i]) h1
      simpa [List.append_assoc] using this
  | startP i rest hp hc hq =>
      refine ⟨?_, ⟨s.trace, rfl, ?_⟩, fun hf => nomatch hf⟩
      · rw [startsOf_append]
        simpa [startsOf, hq, List.append_assoc] using h1
      · rw [hc] at h2
        exact h2
  | doneP i hc =>
      refine ⟨?_, ?_, ?_⟩
      · rw [startsOf_append]
        simpa [startsOf] using h1
      · rw [hc] at h2
        obtain ⟨t, htr, hwf⟩ := h2
        simp only [htr, List.append_assoc]
        exact wfPaired_append_pair t hwf i
      · intro hf
        have hcn := (h3 hf).2
        rw [hc] at hcn
        exact nomatch hcn
  | finishP hp hc hq =>
      refine ⟨?_, ?_, fun _ => ⟨rfl, rfl⟩⟩
      · simpa [hq] using h1
      · rw [hc] at h2
        exact h2

/-- Reachability of the queue machine from its initial state. -/
def QReach (s : QState) : Prop :=
  Relation.ReflTransGen QStep QState.init s

theorem QInv_reach {s : QState} (h : QReach s) : QInv s := by
  induction h with
  | refl => exact QInv_init
  | tail hab hbc ih => exact QInv_step ih hbc

/-- Claim C2: in every reachable quiescent state of the ResponseQueue
machine, the trace is exactly one immediately-closed start/done pair
per enqueued response, in enqueue order, with the queue empty —
processing is FIFO, no two process() invocations overlap, and no
accepted response is dropped. -/
theorem responseQueue_fifo (s : QState) (h : QReach s)
    (hidle : s.processing = false) :
    s.trace = pairTrace s.arrivals ∧ s.queue = [] := by
  obtain ⟨h1, h2, h3⟩ := QInv_reach h
  obtain ⟨hq, hc⟩ := h3 hidle
  rw [hc] at h2
  have hst : startsOf s.trace = s.arrivals := by simpa [hq] using h1
  refine ⟨?_, hq⟩
  rw [← hst]
  exact wfPaired_eq_pairTrace s.trace h2

/-- Witness for C2: a run with two arrivals, the second arriving while
the first is still being processed, quiesces with the canonical FIFO
trace. -/
theorem responseQueue_fifo_witness :
    (⟨[], false, none, [QEv.start 0, QEv.done 0, QEv.start 1, QEv.done 1],
        [0, 1]⟩ : QState).trace = pairTrace [0, 1] ∧
      (⟨[], false, none, [QEv.start 0, QEv.done 0, QEv.start 1, QEv.done 1],
        [0, 1]⟩ : QState).queue = [] :=
  responseQueue_fifo _
    (Relation.ReflTransGen.head (QStep.arrive QState.init 0)
      (Relation.ReflTransGen.head (QStep.startP _ 0 [] rfl rfl rfl)
        (Relation.ReflTransGen.head (QStep.arrive _ 1)
          (Relation.ReflTransGen.head (QStep.doneP _ 0 rfl)
            (Relation.ReflTransGen.head (QStep.startP _ 1 [] rfl rfl rfl)
              (Relation.ReflTransGen.head (QStep.doneP _ 1 rfl)
                (Relation.ReflTransGen.head (QStep.finishP _ rfl rfl rfl)
                  Relation.ReflTransGen.refl)))))))
    rfl

/-- Claim C1: for protocol responses, shouldSetPage follows the spec's
truth table — a synchronous visit always applies; an async visit
applies when the server redirected it to a different component;
otherwise it is discarded unless the originating component is still the
current one and the originating and current URLs agree on origin and
pathname, so a difference only in query string still applies. -/
theorem shouldSetPage_truth_table (rp : ReqParams) (orig cur resp : Page) :
    shouldSetPage rp orig cur resp =
      (!rp.async || orig.component != resp.component ||
        (orig.component == cur.component &&
          orig.url.origin == cur.url.origin &&
          orig.url.pathname == cur.url.pathname)) := by
  unfold shouldSetPage
  cases h : rp.async with
  | false => simp
  | true =>
      cases h1 : orig.component == resp.component <;>
        cases h2 : orig.component == cur.component <;>
          simp [bne, h1, h2]

/-- Claim C5: a response whose request has the prefetch flag set leaves
the entire process() state (page store, preserve-URL flag, history and
session storage) untouched and fires exactly the prefetch-completion
callback, the prefetched event and the prefetch-response callback, in
that order, without classifying the response. -/
theorem process_prefetch_no_mutation (rp : ReqParams) (origPage : Page)
    (resp : AxResponse) (inv : Bool) (st : ProcState) (h : rp.prefetch = true) :
    process rp origPage resp inv st =
      some (st, [Ev.onPrefetched, Ev.prefetchedEvent, Ev.onPrefetchResponse]) := by
  unfold process
  simp [h]

/-- Witness for C5 at a concrete prefetch visit. -/
theorem process_prefetch_no_mutation_witness :
    ({ rpSync with prefetch := true } : ReqParams).prefetch = true ∧
      process { rpSync with prefetch := true } pageA respError true stA =
        some (stA, [Ev.onPrefetched, Ev.prefetchedEvent, Ev.onPrefetchResponse]) :=
  ⟨rfl, process_prefetch_no_mutation _ _ _ _ _ rfl⟩

/-- Claim C6: InitialVisit.handle purges remembered state exactly on
full reloads, before any scenario is evaluated, and then runs exactly
one scenario body, chosen by the fixed priority back/forward >
location-resume > default. -/
theorem initialVisit_exactly_one_scenario (e : InitEnv) :
    initialVisitHandle e =
      (if e.isReload then [InitEffect.clearRemembered] else []) ++
        [specScenario e] := by
  obtain ⟨r, bf, hs, lm⟩ := e
  cases r <;> cases bf <;> cases hs <;> cases lm <;> rfl

/-- Claim C8: once handleLocation has read the session-storage marker,
the marker is removed unconditionally and before the history-entry
decryption is attempted; in particular on a startup where decryption
fails the missing-history-item signal is reported and the marker is
still gone. -/
theorem handleLocation_marker_consumed (ps ok : Bool) :
    (handleLocation (some ps) ok).2.2 = none ∧
      (∃ rest, (handleLocation (some ps) ok).2.1 =
        LocEffect.removeMarker :: LocEffect.setUrlHash ::
          LocEffect.decryptAttempt :: rest) ∧
      (handleLocation (some ps) false).2.1 =
        [LocEffect.removeMarker, LocEffect.setUrlHash, LocEffect.decryptAttempt,
          LocEffect.missingHistoryItem] :=
  ⟨rfl, ⟨_, rfl⟩, rfl⟩

/-- Claim C9: handlePrefetch enqueues the response exactly when the
active page's component equals the payload's component, and enqueues
nothing — no callbacks, no events, no queue interaction — when they
differ. -/
theorem handlePrefetch_component_gate (cur : Page) (resp : AxResponse) :
    (handlePrefetch cur resp = [resp] ↔ cur.component = resp.data.component) ∧
      (handlePrefetch cur resp = [] ↔ cur.component ≠ resp.data.component) := by
  unfold handlePrefetch
  by_cases h : cur.component = resp.data.component <;> simp [h]

theorem setPage_preserveUrl (rp : ReqParams) (origPage pr : Page)
    (st st2 : ProcState) (h : setPage rp origPage pr st = some st2) :
    st2.preserveUrl = st.preserveUrl := by
  unfold setPage at h
  by_cases hs : shouldSetPage rp origPage st.page pr = true
  · rw [hs] at h
    simp only [Bool.not_true, Bool.false_eq_true, if_false] at h
    cases hm : mergeProps rp st.page pr with
    | none => rw [hm] at h; cases h
    | some merged =>
        rw [hm] at h
        cases h
        rfl
  · rw [Bool.not_eq_true] at hs
    rw [hs] at h
    simp only [Bool.not_false, if_true, Option.some.injEq] at h
    rw [← h]

/-- Counterexample for C3: a protocol response carrying errors,
processed with preserveUrl requested, completes its error path with
History.preserveUrl still latched to true — the claim that the flag is
cleared back to false on every path fails on the error path. -/
theorem process_error_keeps_preserveUrl_cex :
    (process rpSync pageA respError true stA).map (fun r => r.1.preserveUrl)
        = some true ∧
      (process rpSync pageA respError true stA).map (fun r => r.1.preserveUrl)
        ≠ some false := by
  constructor
  · decide
  · decide

/-- Claim C3 (amended): after processing a protocol response, the
preserve-URL mode is cleared back to false on the success path, but on
the error path process() returns through the error callback without
clearing it, leaving it at the value the request configured. -/
theorem process_preserveUrl_amended (rp : ReqParams) (origPage : Page)
    (resp : AxResponse) (inv : Bool) (st st' : ProcState) (evs : List Ev)
    (hpf : rp.prefetch = false) (hin : isInertiaResponse resp = true)
    (h : process rp origPage resp inv st = some (st', evs)) :
    st'.preserveUrl =
      (if 0 < keyCount (errorsOf st'.page) then rp.preserveUrl else false) := by
  unfold process at h
  rw [hpf, hin] at h
  simp only [Bool.false_eq_true, if_false, Bool.not_true] at h
  split at h
  · exact Option.noConfusion h
  · rename_i st2 hm
    have hpu := setPage_preserveUrl _ _ _ _ _ hm
    split at h
    · rename_i he
      simp only [Option.some.injEq, Prod.mk.injEq] at h
      obtain ⟨h1, h2⟩ := h
      subst h1
      rw [if_pos he]
      exact hpu
    · rename_i he
      simp only [Option.some.injEq, Prod.mk.injEq] at h
      obtain ⟨h1, h2⟩ := h
      subst h1
      rw [if_neg he]

/-- Witness for C3 (amended) at a concrete error-path input: the error
path completes with preserve-URL still equal to the request's flag. -/
theorem process_preserveUrl_amended_witness :
    (rpSync.prefetch = false ∧ isInertiaResponse respError = true ∧
      process rpSync pageA respError true stA = some (stErr, evsErr)) ∧
      stErr.preserveUrl =
        (if 0 < keyCount (errorsOf stErr.page) then rpSync.preserveUrl else false) :=
  ⟨⟨rfl, rfl, by decide⟩,
    process_preserveUrl_amended rpSync pageA respError true stA stErr evsErr
      rfl rfl (by decide)⟩

/-- Claim C7: remembered state is copied onto the incoming page exactly
when the visit requested preserveState, a remembered-state history
entry exists, and the incoming component equals the current component;
a mismatched component never inherits remembered state. -/
theorem setRememberedState_carryover (rp : ReqParams) (cur : Page)
    (hist : Option Val) (resp : Page) (h : resp.rememberedState = none) :
    ((setRememberedState rp cur hist resp).isSome = true ↔
      (rp.preserveState = true ∧ hist.isSome = true ∧
        resp.component = cur.component)) ∧
      (resp.component ≠ cur.component →
        setRememberedState rp cur hist resp = none) ∧
      (rp.preserveState = true → hist.isSome = true →
        resp.component = cur.component →
        setRememberedState rp cur hist resp = hist) := by
  unfold setRememberedState
  refine ⟨?_, ?_, ?_⟩
  · by_cases h1 : rp.preserveState = true <;>
      by_cases h2 : hist.isSome = true <;>
        by_cases h3 : resp.component = cur.component <;>
          simp [h1, h2, h3, h]
  · intro h3
    simp [h3, h]
  · intro h1 h2 h3
    simp [h1, h2, h3]

/-- Witness for C7: a same-component incoming page with preserveState
requested inherits the stored remembered state. -/
theorem setRememberedState_carryover_witness :
    (respError.data.rememberedState = none) ∧
      setRememberedState { rpSync with preserveState := true } pageA
          (some (Val.str "s")) respError.data = some (Val.str "s") :=
  ⟨rfl,
    (setRememberedState_carryover { rpSync with preserveState := true } pageA
        (some (Val.str "s")) respError.data rfl).2.2 rfl rfl rfl⟩

/-- Claim C10: error scoping is total — with no error-bag name (or the
degenerate empty name, which JS treats as unset) the full errors object
passes through unchanged, and with a configured non-empty name whose
stored values are truthy the result is the value stored under that name
or the empty object when the key is absent. -/
theorem getScopedErrors_total (b : String) (errors : Val)
    (hb : b ≠ "")
    (ht : ∀ v, objGet errors b = some v → jsTruthy v = true) :
    getScopedErrors none errors = errors ∧
      getScopedErrors (some b) errors = (objGet errors b).getD (Val.obj []) := by
  constructor
  · rfl
  · unfold getScopedErrors
    simp only [Option.getD_some, beq_iff_eq]
    rw [if_neg (by simp [hb])]
    cases hv : objGet errors b with
    | none => simp [jsOr, hv]
    | some v => simp [jsOr, hv, ht v hv]

/-- Witness for C10 at a concrete error object with a configured bag. -/
theorem getScopedErrors_total_witness :
    (("bag" : String) ≠ "" ∧
      (∀ v, objGet errsW "bag" = some v → jsTruthy v = true)) ∧
      getScopedErrors none errsW = errsW ∧
      getScopedErrors (some "bag") errsW = (objGet errsW "bag").getD (Val.obj []) := by
  have ht : ∀ v, objGet errsW "bag" = some v → jsTruthy v = true := by
    intro v hv
    have hv2 : Val.obj [("name", Val.str "required")] = v := by
      simpa [errsW, objGet, getProp] using hv
    rw [← hv2]
    rfl
  exact ⟨⟨by decide, ht⟩, getScopedErrors_total "bag" errsW (by decide) ht⟩

theorem getProp_setKey : ∀ (ps : Props) (n m : String) (v : Val),
    getProp (setKey ps n v) m = if n == m then some v else getProp ps m
  | [], n, m, v => by simp [setKey, getProp]
  | (k, w) :: rest, n, m, v => by
      by_cases hkn : k = n
      · subst hkn
        by_cases hkm : k = m
        · subst hkm
          simp [setKey, getProp]
        · simp [setKey, getProp, hkm]
      · by_cases hkm : k = m
        · subst hkm
          have hnm : ¬(n = k) := fun he => hkn he.symm
          simp [setKey, getProp, hkn, hnm, Ne.symm hkn]
        · simp [setKey, getProp, hkn, hkm, getProp_setKey rest n m v]

theorem setKey_same : ∀ (ps : Props) (n : String) (v : Val),
    getProp ps n = some v → setKey ps n v = ps
  | [], n, v, h => by simp [getProp] at h
  | (k, w) :: rest, n, v, h => by
      by_cases hkn : k = n
      · subst hkn
        simp only [getProp, beq_self_eq_true, if_true, Option.some.injEq] at h
        simp [setKey, h]
      · simp only [getProp, beq_iff_eq, if_neg hkn] at h
        simp [setKey, hkn, setKey_same rest n v h]

theorem setKey_append : ∀ (acc : Props) (k : String) (v : Val),
    keyIn acc k = false → setKey acc k v = acc ++ [(k, v)]
  | [], k, v, _ => rfl
  | (k', w) :: rest, k, v, h => by
      simp only [keyIn, List.any_cons, Bool.or_eq_false_iff] at h
      simp only [setKey, h.1, Bool.false_eq_true, if_false, List.cons_append,
        List.cons.injEq, true_and]
      exact setKey_append rest k v (by simpa [keyIn] using h.2)

theorem foldl_setKey_append :
    ∀ (fs acc : Props), keysNodup fs = true →
      (∀ kv ∈ fs, keyIn acc kv.1 = false) →
      List.foldl (fun acc kv => setKey acc kv.1 kv.2) acc fs = acc ++ fs
  | [], acc, _, _ => by simp
  | (k, v) :: rest, acc, hnd, hfresh => by
      simp only [keysNodup, Bool.and_eq_true, Bool.not_eq_true'] at hnd
      obtain ⟨hk, hrest⟩ := hnd
      have hknotin : keyIn acc k = false := hfresh (k, v) (List.mem_cons_self _ _)
      simp only [List.foldl_cons, setKey_append acc k v hknotin]
      have hfresh2 : ∀ kv ∈ rest, keyIn (acc ++ [(k, v)]) kv.1 = false := by
        intro kv hkv
        have h1 : keyIn acc kv.1 = false := hfresh kv (List.mem_cons_of_mem _ hkv)
        have h2 : (kv.1 == k) = false := by
          by_contra hne
          rw [Bool.not_eq_false] at hne
          have : keyIn rest k = true := by
            simp only [keyIn, List.any_eq_true]
            exact ⟨kv, hkv, hne⟩
          rw [this] at hk
          exact Bool.noConfusion hk
        have h3 : (k == kv.1) = false := by
          simp only [beq_eq_false_iff_ne] at h2 ⊢
          exact fun he => h2 he.symm
        simp only [keyIn] at h1
        simp only [keyIn, List.any_append, List.any_cons, List.any_nil,
          Bool.or_false, Bool.or_eq_false_iff]
        exact ⟨h1, h3⟩
      rw [foldl_setKey_append rest (acc ++ [(k, v)]) hrest hfresh2]
      simp

/-- Under the distinct-keys invariant, the code's object-spread of an
empty prior is the identity on the incoming fields. -/
theorem objMergeFields_nil (fs : Props) (h : keysNodup fs = true) :
    objMergeFields [] fs = fs := by
  have := foldl_setKey_append fs [] h (fun kv _ => rfl)
  simpa [objMergeFields] using this

theorem compat_mergeVal (vi : Val) (vp : Option Val)
    (h : Compat (some vi) vp) :
    Compat (some (claimMergeVal vi vp)) vp := by
  cases vi with
  | arr xs =>
      cases vp with
      | none => simp [claimMergeVal, Compat]
      | some p =>
          cases p with
          | arr ys => simp [claimMergeVal, Compat]
          | obj gs => simpa [claimMergeVal, Compat] using h
          | str s => simpa [claimMergeVal, Compat] using h
          | num a => simpa [claimMergeVal, Compat] using h
  | obj fs =>
      cases vp with
      | none => simpa [claimMergeVal, Compat] using h
      | some p =>
          cases p with
          | arr ys => simp [Compat, jsTruthy] at h
          | obj gs => simp [claimMergeVal, Compat]
          | str s => simpa [claimMergeVal, Compat] using h
          | num a => simpa [claimMergeVal, Compat] using h
  | str s => cases vp with
      | none => simp [claimMergeVal, Compat]
      | some p => simp [claimMergeVal, Compat]
  | num n => cases vp with
      | none => simp [claimMergeVal, Compat]
      | some p => simp [claimMergeVal, Compat]

theorem mergeOne_compat (curProps props : Props) (n : String)
    (h : Compat (getProp props n) (getProp curProps n)) :
    mergeOne curProps props n = some (claimMergeOne curProps props n) := by
  unfold mergeOne claimMergeOne
  cases hvi : getProp props n with
  | none => rfl
  | some vi =>
      rw [hvi] at h
      cases vi with
      | arr xs =>
          cases hvp : getProp curProps n with
          | none => simp [jsOr, arrSpread, claimMergeVal]
          | some p =>
              rw [hvp] at h
              simp only [Compat] at h
              rcases h with ⟨ys, rfl⟩ | hfal
              · simp [jsOr, jsTruthy, arrSpread, claimMergeVal]
              · cases p with
                | arr ys => simp [jsTruthy] at hfal
                | obj gs => simp [jsTruthy] at hfal
                | str s =>
                    have hs : s = "" := by simpa [jsTruthy] using hfal
                    subst hs
                    simp [jsOr, jsTruthy, arrSpread, claimMergeVal]
                | num a =>
                    have ha : a = 0 := by simpa [jsTruthy] using hfal
                    subst ha
                    simp [jsOr, jsTruthy, arrSpread, claimMergeVal]
      | obj fs =>
          cases hvp : getProp curProps n with
          | none =>
              rw [hvp] at h
              simp only [Compat] at h
              simp [jsOr, objSpreadFields, claimMergeVal, objMergeFields_nil fs h]
          | some p =>
              rw [hvp] at h
              simp only [Compat] at h
              rcases h with ⟨gs, rfl⟩ | ⟨hfal, hnodup⟩
              · simp [jsOr, jsTruthy, objSpreadFields, claimMergeVal]
              · cases p with
                | arr ys => simp [jsTruthy] at hfal
                | obj gs => simp [jsTruthy] at hfal
                | str s =>
                    have hs : s = "" := by simpa [jsTruthy] using hfal
                    subst hs
                    simp [jsOr, jsTruthy, objSpreadFields, claimMergeVal,
                      objMergeFields_nil fs hnodup]
                | num a =>
                    have ha : a = 0 := by simpa [jsTruthy] using hfal
                    subst ha
                    simp [jsOr, jsTruthy, objSpreadFields, claimMergeVal,
                      objMergeFields_nil fs hnodup]
      | str s =>
          show some props =
            some (setKey props n (claimMergeVal (Val.str s) (getProp curProps n)))
          have hc : claimMergeVal (Val.str s) (getProp curProps n) = Val.str s := by
            cases getProp curProps n with
            | none => rfl
            | some p => cases p <;> rfl
          rw [hc, setKey_same props n (Val.str s) hvi]
      | num a =>
          show some props =
            some (setKey props n (claimMergeVal (Val.num a) (getProp curProps n)))
          have hc : claimMergeVal (Val.num a) (getProp curProps n) = Val.num a := by
            cases getProp curProps n with
            | none => rfl
            | some p => cases p <;> rfl
          rw [hc, setKey_same props n (Val.num a) hvi]

theorem mergeAll_compat (curProps : Props) :
    ∀ (l : List String) (props : Props),
      (∀ m ∈ l, Compat (getProp props m) (getProp curProps m)) →
      mergeAll curProps props l = some (claimMergeAll curProps props l)
  | [], props, _ => rfl
  | n :: ns, props, h => by
      have hn := h n (List.mem_cons_self n ns)
      rw [mergeAll, claimMergeAll, mergeOne_compat curProps props n hn]
      have hrest : ∀ m ∈ ns,
          Compat (getProp (claimMergeOne curProps props n) m) (getProp curProps m) := by
        intro m hm
        unfold claimMergeOne
        cases hvi : getProp props n with
        | none => exact h m (List.mem_cons_of_mem n hm)
        | some vi =>
            rw [getProp_setKey]
            by_cases hnm : n = m
            · subst hnm
              simp only [beq_self_eq_true, if_true]
              rw [hvi] at hn
              exact compat_mergeVal vi (getProp curProps n) hn
            · rw [if_neg (by simpa using hnm)]
              exact h m (List.mem_cons_of_mem n hm)
      exact mergeAll_compat curProps ns (claimMergeOne curProps props n) hrest

/-- Counterexample for C4: on a partial reload of the same component
with current prop a = [1] and incoming mergeable prop a = an object,
the code does not replace the prior outright — it spreads the prior
array's index keys into the incoming object, so the claim's
otherwise-replace clause fails. -/
theorem mergeProps_mixed_kinds_cex :
    mergeProps rpPartial pageMixed respMixed = some mixedCodePage ∧
      claimMergeProps rpPartial pageMixed respMixed = mixedClaimPage ∧
      mergeProps rpPartial pageMixed respMixed ≠
        some (claimMergeProps rpPartial pageMixed respMixed) :=
  ⟨by decide, by decide, by decide⟩

/-- Claim C4 (amended): prop merging applies only on a partial reload
targeting the current component; for each mergeable prop whose incoming
and prior values are kind-compatible — both arrays, both objects, an
absent or falsy prior, or a primitive incoming value — the claim's
trichotomy (concatenate prior-first / shallow-merge with incoming keys
winning / replace outright) is exactly what the code computes, and
afterwards the full incoming prop set is layered over the full current
prop set; on kind-mismatched props the code instead follows the
incoming value's kind (see the counterexample). -/
theorem mergeProps_amended (rp : ReqParams) (cur resp : Page)
    (h : ∀ m ∈ resp.mergeProps, Compat (getProp resp.props m) (getProp cur.props m)) :
    mergeProps rp cur resp = some (claimMergeProps rp cur resp) := by
  unfold mergeProps claimMergeProps
  by_cases hc : (rp.isPartial && (resp.component == cur.component)) = true
  · rw [if_pos hc, if_pos hc, mergeAll_compat cur.props resp.mergeProps resp.props h]
  · rw [if_neg hc, if_neg hc]

/-- Witness for C4 (amended) at the claim's own examples: merging
incoming a = [3] into current a = [1, 2] yields a = [1, 2, 3], and
merging incoming a = (y: 2) into current a = (x: 1) yields
a = (x: 1, y: 2). -/
theorem mergeProps_amended_witness :
    (∀ m ∈ respArr.mergeProps, Compat (getProp respArr.props m) (getProp pageArr.props m)) ∧
      mergeProps rpPartial pageArr respArr =
        some (claimMergeProps rpPartial pageArr respArr) ∧
      claimMergeProps rpPartial pageArr respArr = mergedArrPage ∧
      mergeProps rpPartial pageObj respObj = some mergedObjPage := by
  have hcompat : ∀ m ∈ respArr.mergeProps,
      Compat (getProp respArr.props m) (getProp pageArr.props m) := by
    intro m hm
    have hm2 : m = "a" := by simpa [respArr] using hm
    subst hm2
    have h1 : getProp respArr.props "a" = some (Val.arr [Val.num 3]) := by decide
    have h2 : getProp pageArr.props "a" = some (Val.arr [Val.num 1, Val.num 2]) := by decide
    rw [h1, h2]
    exact Or.inl ⟨_, rfl⟩
  exact ⟨hcompat, mergeProps_amended rpPartial pageArr respArr hcompat,
    by decide, by decide⟩
